import Mathlib

/-!
Verification of the readme-tsdoc documentation splicer and renderer
(src/readme-tsdoc.js) against its specification.

Documents and all other JavaScript strings are modelled as `List Char`.
The TypeScript compiler API (the type/AST oracle), the file system and
the `git ls-files` subprocess are external collaborators; they enter the
model as explicit parameters (oracle values / functions), exactly at the
call sites where the source consults them.
-/

set_option maxRecDepth 10000

abbrev Str := List Char

/-! ## Basic string helpers (JavaScript semantics) -/

/-- Length of the maximal run of characters satisfying `p` at the head. -/
def runLength (p : Char → Bool) : Str → Nat
  | [] => 0
  | c :: cs => if p c then runLength p cs + 1 else 0

/-- `pre.isPrefixOf s`, written out structurally (JS `String.startsWith`). -/
def startsWithStr : Str → Str → Bool
  | [], _ => true
  | _ :: _, [] => false
  | a :: as, b :: bs => a == b && startsWithStr as bs

/-- JS `String.includes`: some suffix of `hay` starts with `needle`. -/
def containsStr (hay needle : Str) : Bool :=
  (List.range (hay.length + 1)).any (fun i => startsWithStr needle (hay.drop i))

/-- The whitespace class of JS regexes (`\s`) and `String.trim`,
restricted to the ASCII part (the unicode spaces are irrelevant here). -/
def jsWs (c : Char) : Bool :=
  c == ' ' || c == '\t' || c == '\n' || c == '\r' || c == '\x0b' || c == '\x0c'

/-- JS `String.trim` (both ends). -/
def trimStr (s : Str) : Str :=
  ((s.dropWhile (fun c => jsWs c)).reverse.dropWhile (fun c => jsWs c)).reverse

/-- Index of the first newline of `s`, if any. -/
def idxOfNewline : Str → Option Nat
  | [] => none
  | c :: cs => if c = '\n' then some 0 else (idxOfNewline cs).map (· + 1)

/-- `n, n-1, ..., 1, 0` — the candidate order of a greedy quantifier. -/
def downFrom : Nat → List Nat
  | 0 => [0]
  | n + 1 => (n + 1) :: downFrom n

/-- `n, n-1, ..., 1` — greedy order for a `+` quantifier. -/
def downFromPos : Nat → List Nat
  | 0 => []
  | n + 1 => (n + 1) :: downFromPos n

/-- First success of `f` over the candidate list (backtracking order). -/
def firstHit : List Nat → (Nat → Option α) → Option α
  | [], _ => none
  | x :: xs, f => match f x with
    | some y => some y
    | none => firstHit xs f

/-! ## Document splicer (updateReadme / findNextHeadingBoundary)

The marker pattern built in `updateReadme` is

  `(^(#{1,6})\s+)?(.*?\n{phrase}[ \x60]*([^\x60: ]+)[\x60: ]*\n)`

with flags `gm`, where `{phrase}` is the regex-escaped search phrase.
`tryMatchAt` reproduces the behaviour of this pattern at one start
position, including the backtracking order of the quantifiers
(greedy `#{1,6}` and `\s+`, lazy `.*?`, greedy character classes), and
`findMatches` reproduces `String.matchAll` (leftmost match, then
continue scanning after the end of the previous match). -/

/-- The character class `[ \x60]` (space or backtick). -/
def spaceOrTick (c : Char) : Bool := c == ' ' || c == '\x60'

/-- The character class `[\x60: ]` (backtick, colon or space). -/
def tickColonSpace (c : Char) : Bool := c == '\x60' || c == ':' || c == ' '

/-- One match of the marker pattern. `length` is the length of the full
match, `headingHashes` the length of capture 2 (the heading marks of a
directly preceding heading line, when that optional group participates),
`beforeSearch` capture 3 and `sourceFile` capture 4. -/
structure MarkerMatch where
  index : Nat
  length : Nat
  headingHashes : Option Nat
  beforeSearch : Str
  sourceFile : Str
deriving DecidableEq, Repr

/-- Match `[ \x60]*([^\x60: ]+)[\x60: ]*\n` at the head of `rest` (the part
of the phrase line after the search phrase).  Quantifiers are greedy, and
the negated class `[^\x60: ]` also matches a newline, exactly as in a JS
regex.  Returns the consumed length and capture 4. -/
def matchAfterPhrase (rest : Str) : Option (Nat × Str) :=
  firstHit (downFrom (runLength spaceOrTick rest)) fun t1 =>
    let r1 := rest.drop t1
    firstHit (downFromPos (runLength (fun c => !tickColonSpace c) r1)) fun t2 =>
      let r2 := r1.drop t2
      firstHit (downFrom (runLength tickColonSpace r2)) fun t3 =>
        if r2.get? t3 = some '\n' then some (t1 + t2 + t3 + 1, r1.take t2)
        else none

/-- Match group 3, `.*?\n{phrase}[ \x60]*([^\x60: ]+)[\x60: ]*\n`, at the
head of `s`.  Since `.` does not match a newline, the lazy `.*?\n` always
consumes up to and including the first newline of `s`.  Returns the
consumed length and capture 4. -/
def matchGroup3 (phrase s : Str) : Option (Nat × Str) :=
  match idxOfNewline s with
  | none => none
  | some d =>
    let after := s.drop (d + 1)
    if startsWithStr phrase after then
      match matchAfterPhrase (after.drop phrase.length) with
      | some (c, tok) => some (d + 1 + phrase.length + c, tok)
      | none => none
    else none

/-- Does position `p` of `text` sit at the start of a line (`^` with the
`m` flag)? -/
def lineStartAt (text : Str) (p : Nat) : Bool :=
  p == 0 || text.get? (p - 1) == some '\n'

/-- The heading branch of the marker pattern at position `p`: the
optional group `(^(#{1,6})\s+)` participates.  `^` requires a line
start; `#{1,6}` can only take the full run of heading marks (a shorter
take leaves a heading mark where `\s+` needs whitespace), and `\s+`
backtracks from its longest extent. -/
def branchAAt (phrase text : Str) (p : Nat) : Option MarkerMatch :=
  if lineStartAt text p then
    let s := text.drop p
    let k := runLength (fun c => c == '#') s
    if 1 ≤ k ∧ k ≤ 6 then
      firstHit (downFromPos (runLength jsWs (s.drop k))) fun sLen =>
        match matchGroup3 phrase (s.drop (k + sLen)) with
        | some (g, tok) =>
          some { index := p, length := k + sLen + g, headingHashes := some k,
                 beforeSearch := (s.drop (k + sLen)).take g, sourceFile := tok }
        | none => none
    else none
  else none

/-- Attempt the whole marker pattern at position `p` of `text`.  The
optional heading group is tried first (it is greedy); if that branch
fails the group does not participate and group 3 is matched directly
at `p`. -/
def tryMatchAt (phrase text : Str) (p : Nat) : Option MarkerMatch :=
  match branchAAt phrase text p with
  | some m => some m
  | none =>
    match matchGroup3 phrase (text.drop p) with
    | some (g, tok) =>
      some { index := p, length := g, headingHashes := none,
             beforeSearch := (text.drop p).take g, sourceFile := tok }
    | none => none

/-- Scan positions `p, p+1, ...` (`count` of them) for the first position
where the marker pattern matches. -/
def scanForMatch (phrase text : Str) : Nat → Nat → Option MarkerMatch
  | _, 0 => none
  | p, n + 1 =>
    match tryMatchAt phrase text p with
    | some m => some m
    | none => scanForMatch phrase text (p + 1) n

/-- Leftmost match of the marker pattern at a position `≥ pos`. -/
def firstMatchFrom (phrase text : Str) (pos : Nat) : Option MarkerMatch :=
  scanForMatch phrase text pos (text.length + 1 - pos)

/-- All matches of `String.matchAll`: after each (non-empty) match the
scan resumes at its end.  Every match consumes at least one character,
so `text.length + 1` rounds of fuel are enough to reach the end. -/
def scanFrom (phrase text : Str) : Nat → Nat → List MarkerMatch
  | 0, _ => []
  | fuel + 1, pos =>
    match firstMatchFrom phrase text pos with
    | none => []
    | some m => m :: scanFrom phrase text fuel (m.index + m.length)

/-- `Array.from(readme.matchAll(markerRegex))` in document order. -/
def findMatches (phrase text : Str) : List MarkerMatch :=
  scanFrom phrase text (text.length + 1) 0

/-- Does a heading line (`^(#{1,6})\s+` with the `m` flag) start at
position `i` of `text`?  If so, its depth. -/
def headingLevelAt (text : Str) (i : Nat) : Option Nat :=
  if lineStartAt text i then
    let s := text.drop i
    let k := runLength (fun c => c == '#') s
    if 1 ≤ k ∧ k ≤ 6 ∧ (s.get? k).any jsWs = true then some k
    else none
  else none

/-- Scan helper for `findNextHeadingBoundary`. -/
def boundaryScan (text : Str) (maxLevel : Nat) : Nat → Nat → Nat
  | _, 0 => text.length
  | p, n + 1 =>
    match headingLevelAt text p with
    | some k => if k ≤ maxLevel then p else boundaryScan text maxLevel (p + 1) n
    | none => boundaryScan text maxLevel (p + 1) n

/-- `findNextHeadingBoundary(text, startPos, maxLevel)`: the position of
the next heading of depth `≤ maxLevel` at or after `startPos`, or the
text length if none.  (The source advances the regex past each heading it
rejects; since a heading never starts inside the span of another heading
match, scanning every position is equivalent.) -/
def findNextHeadingBoundary (text : Str) (startPos maxLevel : Nat) : Nat :=
  boundaryScan text maxLevel startPos (text.length + 1 - startPos)

/-- `precedingHeadingLevel?.length || 2`. -/
def markerBase (m : MarkerMatch) : Nat :=
  match m.headingHashes with
  | some k => k
  | none => 2

/-- `'#'.repeat(n)`. -/
def hashMarks (n : Nat) : Str := List.replicate n '#'

/-- The replacement text written for one marker:
`(heading marks + space, when a heading was captured) + beforeSearch +
"\n" + newContent`. -/
def markerReplacement (m : MarkerMatch) (newContent : Str) : Str :=
  (match m.headingHashes with
   | some k => hashMarks k ++ [' ']
   | none => []) ++ m.beforeSearch ++ '\n' :: newContent

/-- One iteration of the `for (const match of matches)` loop.  `gen` is
`generateMarkdownDoc` as an oracle from (source file token, heading
marks) to generated markdown, `none` modelling a thrown error.  Note
that `contentEnd` is computed on the original `readme` while the splice
is applied to `updated`, exactly as in the source. -/
def spliceStep (gen : Str → Str → Option Str) (readme : Str) (m : MarkerMatch)
    (updated : Str) : Option Str :=
  let base := markerBase m
  let contentStart := m.index + m.length
  let contentEnd := findNextHeadingBoundary readme contentStart base
  match gen m.sourceFile (hashMarks (base + 1)) with
  | none => none
  | some newContent =>
    some (updated.take m.index ++ markerReplacement m newContent ++ updated.drop contentEnd)

/-- The loop over the (reversed) match list; a thrown generation error
aborts the remaining iterations. -/
def splicePass (gen : Str → Str → Option Str) (readme : Str) :
    List MarkerMatch → Str → Option Str
  | [], u => some u
  | m :: rest, u =>
    match spliceStep gen readme m u with
    | none => none
    | some v => splicePass gen readme rest v

/-- Outcome of one `updateReadme` invocation. -/
inductive PassResult where
  | noMarkers : PassResult
  | genFailed : PassResult
  | written : Str → Nat → PassResult
deriving DecidableEq, Repr

/-- `updateReadme` on document text `readme`: zero matches is terminal
(no write); otherwise matches are processed in reverse document order
and the fully spliced text is written at the end. -/
def updateReadmeModel (gen : Str → Str → Option Str) (phrase readme : Str) : PassResult :=
  let ms := findMatches phrase readme
  if ms.isEmpty then .noMarkers
  else
    match splicePass gen readme ms.reverse readme with
    | none => .genFailed
    | some u => .written u ms.length

/-- The content written back to the file, if any. -/
def writtenContent : PassResult → Option Str
  | .written u _ => some u
  | _ => none

/-- Observable CLI outcome: exit code, written content, stderr line. -/
structure CliOutcome where
  exitCode : Nat
  written : Option Str
  stderr : Option Str
deriving DecidableEq, Repr

/-- The process-level behaviour: zero markers prints
`Could not find any "{phrase}" markers in {path}` on stderr and exits
with code 1 before any write; a propagated generation error also ends
the process with a non-zero code and no write; otherwise the spliced
text is written and the process exits 0. -/
def runPass (gen : Str → Str → Option Str) (phrase path readme : Str) : CliOutcome :=
  match updateReadmeModel gen phrase readme with
  | .noMarkers =>
    { exitCode := 1, written := none,
      stderr := some ("Could not find any \"".data ++ phrase ++ "\" markers in ".data ++ path) }
  | .genFailed => { exitCode := 1, written := none, stderr := none }
  | .written u _ => { exitCode := 0, written := some u, stderr := none }

/-- One whole splice run as a document-to-document function, for a
generator that always succeeds; when nothing is written the document
keeps its previous content. -/
def spliceAllTotal (gen : Str → Str → Str) (phrase readme : Str) : Str :=
  match updateReadmeModel (fun src h => some (gen src h)) phrase readme with
  | .written u _ => u
  | _ => readme

/-! ## Renderer, classifier, doc extractor

Everything below mirrors the declaration-walking and markdown-rendering
functions of the source one for one.  The TypeScript AST is modelled by
the fields these functions actually read; the type checker, the
per-node line numbers and the `git ls-files` subprocess are oracle
inputs.  A thrown JS exception is `Except.error ()`; functions that
cannot throw are pure. -/

/-- The syntactic kinds distinguished by the source. -/
inductive SynKind where
  | functionDeclaration
  | classDeclaration
  | interfaceDeclaration
  | typeAliasDeclaration
  | variableDeclaration
  | variableStatement
  | exportSpecifier
  | ctorDecl
  | constructSignature
  | methodDeclaration
  | propertyDeclaration
  | getAccessor
  | setAccessor
  | otherKind
deriving DecidableEq, Repr

/-- The modifier kinds the source checks for. -/
inductive Modifier where
  | abstractKw
  | staticKw
  | otherMod
deriving DecidableEq, Repr

/-- A JSDoc tag: its tag name, the optional associated identifier
(`tag.name?.escapedText` and `tag.name?.getText()`, which agree for the
plain identifiers handled here) and the optional comment text
(`none` models an `undefined` comment). -/
structure JSTag where
  tagName : Str
  name : Option Str
  comment : Option Str
deriving DecidableEq, Repr

/-- A JSDoc block (`node.jsDoc[0]`): free comment text and, optionally,
a tag array.  An empty tag array is distinct from an absent one: in JS
`[]` is truthy while `undefined` is falsy. -/
structure JSDocC where
  comment : Option Str
  tags : Option (List JSTag)
deriving DecidableEq, Repr

/-- JS truthiness of a string that may also be `undefined`/`null`:
both absence and the empty string are falsy. -/
def jsTruthy : Option Str → Bool
  | none => false
  | some s => !s.isEmpty

/-- `s || ''`. -/
def jsOrEmpty : Option Str → Str
  | none => []
  | some s => s

/-- `s || fb` (the empty string is falsy and also falls back). -/
def jsOrStr (o : Option Str) (fb : Str) : Str :=
  match o with
  | some s => if s.isEmpty then fb else s
  | none => fb

/-- Direct template interpolation of a possibly-`undefined` string:
`${undefined}` prints the text `undefined`. -/
def jsInterp : Option Str → Str
  | none => "undefined".data
  | some s => s

/-- A function/method parameter: name, optional declared type text
(`param.type?.getText()`), `?` token, and whether a default value
expression is attached. -/
structure Param where
  name : Str
  type : Option Str
  questionToken : Bool
  hasInitExpr : Bool
deriving DecidableEq, Repr

/-- A type parameter: name, optional constraint text and default text. -/
structure TypeParam where
  name : Str
  constraint : Option Str
  dflt : Option Str
deriving DecidableEq, Repr

/-- Outcome of the checker calls inside the `try` of
`generateClassMemberDoc`: the checker threw, `getSymbolAtLocation`
returned no symbol, or a rendered type string was obtained. -/
inductive MemberTypeRes where
  | thrown
  | noSymbol
  | found : Str → MemberTypeRes
deriving DecidableEq, Repr

/-- A class/interface member with the fields the renderer reads.
`line` is the 1-based line of `member.getStart()` (an oracle, like the
checker result `typeRes`). -/
structure Member where
  kind : SynKind
  name : Option Str
  modifiers : List Modifier
  jsDoc : Option JSDocC
  parentJsDoc : Option JSDocC
  grandparentJsDoc : Option JSDocC
  parameters : List Param
  typeRes : MemberTypeRes
  line : Nat
deriving DecidableEq, Repr

/-- One node of the parent chain walked by `isConst`: its kind, its
`flags & NodeFlags.Const` bit, and — read only when the node is a
`VariableStatement` — the `declarationList?.flags & NodeFlags.Const`
bit (false when the list is absent, since `undefined & Const` is 0). -/
structure AncNode where
  kind : SynKind
  constFlag : Bool
  declListConstFlag : Bool
deriving DecidableEq, Repr

/-- A resolved declaration with the fields the source reads.
`constChain` is the node itself followed by its syntactic ancestors
(the `node = node.parent` walk of `isConst`); `jsDoc`, `parentJsDoc`
and `grandparentJsDoc` are `jsDoc?.[0]` of the node, of its parent
(the variable declaration list) and of its grandparent (the variable
statement); `typeNodeText` is `declaration.type?.getText()`; `line` is
the 1-based line of `declaration.getStart()`. -/
structure Decl where
  kind : SynKind
  modifiers : List Modifier
  constChain : List AncNode
  jsDoc : Option JSDocC
  parentJsDoc : Option JSDocC
  grandparentJsDoc : Option JSDocC
  typeParameters : List TypeParam
  parameters : List Param
  members : List Member
  typeNodeText : Option Str
  line : Nat
deriving DecidableEq, Repr

/-- The part of a node consulted by `extractJSDoc`. -/
structure DocNode where
  kind : SynKind
  jsDoc : Option JSDocC
  parentJsDoc : Option JSDocC
  grandparentJsDoc : Option JSDocC
deriving DecidableEq, Repr

def Decl.toDocNode (d : Decl) : DocNode :=
  { kind := d.kind, jsDoc := d.jsDoc, parentJsDoc := d.parentJsDoc,
    grandparentJsDoc := d.grandparentJsDoc }

def Member.toDocNode (m : Member) : DocNode :=
  { kind := m.kind, jsDoc := m.jsDoc, parentJsDoc := m.parentJsDoc,
    grandparentJsDoc := m.grandparentJsDoc }

/-- `extractJSDoc(declaration)`: the declaration's own attached comment
first; for a variable declaration then the enclosing declaration list's
comment, then the enclosing statement's comment; otherwise null. -/
def extractJSDoc (n : DocNode) : Option JSDocC :=
  match n.jsDoc with
  | some j => some j
  | none =>
    if n.kind == SynKind.variableDeclaration then
      match n.parentJsDoc with
      | some j => some j
      | none => n.grandparentJsDoc
    else none

/-- `extractJSDoc` applied through an optional chain (the source passes
possibly-undefined nodes; all accesses are `?.`-guarded). -/
def extractJSDocOpt (o : Option Decl) : Option JSDocC :=
  match o with
  | some d => extractJSDoc d.toDocNode
  | none => none

/-- The `while (node)` walk of `isConst`: the node's own const flag
first; at a `VariableStatement` the walk stops and returns the
declaration list's const flag; otherwise continue with the parent. -/
def constChainCheck : List AncNode → Bool
  | [] => false
  | n :: rest =>
    if n.constFlag then true
    else if n.kind == SynKind.variableStatement then n.declListConstFlag
    else constChainCheck rest

/-- `isConst(declaration)`. -/
def isConst (d : Decl) : Bool :=
  constChainCheck d.constChain

/-- `getTypeLabel(declaration, typeString)`.  The `if (typeString)`
guard is JS truthiness: a null or empty rendered type skips the
call-shape checks. -/
def getTypeLabel (d : Decl) (typeString : Option Str) : Str :=
  if d.kind == SynKind.functionDeclaration then "function".data
  else if d.kind == SynKind.classDeclaration then
    (if d.modifiers.contains Modifier.abstractKw then "abstract class".data else "class".data)
  else if d.kind == SynKind.interfaceDeclaration then "interface".data
  else if d.kind == SynKind.typeAliasDeclaration then "type".data
  else if d.kind == SynKind.variableDeclaration then
    (if jsTruthy typeString then
      (let ts := jsOrEmpty typeString
       if containsStr ts "=>".data || startsWithStr "(".data ts then "function".data
       else if startsWithStr "typeof ".data ts && !containsStr ts "=>".data then "class".data
       else if isConst d then "constant".data else "variable".data)
     else if isConst d then "constant".data else "variable".data)
  else if (match typeString with
           | some ts => containsStr ts "=>".data
           | none => false) then "function".data
  else "value".data

/-- `getMemberType(member, isStatic)`. -/
def getMemberType (m : Member) (isStatic : Bool) : Str :=
  (if m.modifiers.contains Modifier.abstractKw then "abstract ".data else []) ++
  (if isStatic then "static ".data else []) ++
  (match m.kind with
   | SynKind.methodDeclaration => "method".data
   | SynKind.propertyDeclaration => "property".data
   | SynKind.getAccessor => "getter".data
   | SynKind.setAccessor => "setter".data
   | SynKind.constructSignature => "constructor".data
   | _ => "member".data)

/-- `generateJSDocTags(jsDoc)`: returns line, throws list, examples
block; nothing when the tag array is absent. -/
def generateJSDocTags (j : Option JSDocC) : Str :=
  match j with
  | none => []
  | some jd =>
    match jd.tags with
    | none => []
    | some tags =>
      (match tags.find? (fun t => t.tagName == "returns".data) with
       | some t =>
         if jsTruthy t.comment then "**Returns:** ".data ++ jsOrEmpty t.comment ++ "\n\n".data
         else []
       | none => []) ++
      (let throwsTags := tags.filter (fun t => t.tagName == "throws".data)
       if throwsTags.length > 0 then
         "**Throws:**\n\n".data ++
           (throwsTags.map (fun t => "- ".data ++ jsInterp t.comment ++ "\n".data)).flatten ++
           "\n".data
       else []) ++
      (let exampleTags := tags.filter (fun t => t.tagName == "example".data)
       if exampleTags.length > 0 then
         "**Examples:**\n\n".data ++
           (exampleTags.map (fun t => jsInterp t.comment ++ "\n\n".data)).flatten
       else [])

/-- Strip the optional leading dash of a `@template` comment. -/
def cleanTemplateComment (c : Str) : Str :=
  if startsWithStr "- ".data c then c.drop 2 else c

/-- `Map.get` where a later `Map.set` for the same key wins. -/
def mapGetLast (l : List (Str × Str)) (key : Str) : Option Str :=
  (l.reverse.find? (fun pr => pr.1 == key)).map (fun pr => pr.2)

/-- `generateTypeParameters(typeParameters, jsDoc)`: `@template` tags
are associated to type parameters positionally (the `templateIndex`
counter), then each parameter line is rendered with its constraint,
default and looked-up comment. -/
def generateTypeParameters (tps : List TypeParam) (jsDoc : Option JSDocC) : Str :=
  let templateTags :=
    match jsDoc with
    | some jd => (match jd.tags with
                  | some tags => tags.filter (fun t => t.tagName == "template".data)
                  | none => [])
    | none => []
  let templateDocs := (List.zip tps templateTags).map
    (fun pr => (pr.1.name, cleanTemplateComment (jsOrEmpty pr.2.comment)))
  "**Type Parameters:**\n\n".data ++
  (tps.map (fun p =>
    let constraintTxt := match p.constraint with
      | some c => " extends ".data ++ c
      | none => []
    let dfltTxt := match p.dflt with
      | some dd => " = ".data ++ dd
      | none => []
    let commentTxt := match mapGetLast templateDocs p.name with
      | some c => if c.isEmpty then [] else " - ".data ++ c
      | none => []
    "- \x60".data ++ p.name ++ constraintTxt ++ dfltTxt ++ "\x60".data ++ commentTxt
      ++ "\n".data)).flatten ++ "\n".data

/-- `generateParameters(declaration)`: the parameter list and the
JSDoc block are the declaration's own (`declaration.parameters`,
`declaration.jsDoc?.[0]`); a `@param` tag matches by exact name. -/
def generateParameters (params : List Param) (jsDoc : Option JSDocC) : Str :=
  "**Parameters:**\n\n".data ++
  (params.map (fun p =>
    let typeTxt := match p.type with
      | some t => t
      | none => "any".data
    let optTxt := if p.questionToken then "?".data else []
    let dfltTxt := if p.hasInitExpr then " (optional)".data else []
    let commentTxt :=
      match jsDoc with
      | some jd =>
        (match jd.tags with
         | some tags =>
           (match tags.find? (fun t =>
               t.tagName == "param".data && t.name == some p.name) with
            | some t =>
              if jsTruthy t.comment then " - ".data ++ jsOrEmpty t.comment else []
            | none => [])
         | none => [])
      | none => []
    "- \x60".data ++ p.name ++ optTxt ++ ": ".data ++ typeTxt ++ "\x60".data ++ dfltTxt
      ++ commentTxt ++ "\n".data)).flatten ++ "\n".data

/-- `generateJSDocBasedFunctionDoc(jsDoc)` (callers guarantee the tag
array is present; an absent array behaves as empty here). -/
def generateJSDocBasedFunctionDoc (jd : JSDocC) : Str :=
  let tags : List JSTag := match jd.tags with
    | some ts => ts
    | none => []
  let paramTags := tags.filter (fun t => t.tagName == "param".data)
  (if paramTags.length > 0 then
    "**Parameters:**\n\n".data ++
    (paramTags.map (fun t =>
      "- \x60".data ++ jsOrStr t.name "unknown".data ++ "\x60 - ".data
        ++ jsOrEmpty t.comment ++ "\n".data)).flatten ++ "\n".data
   else ([] : Str)) ++ generateJSDocTags (some jd)

/-- `generateFunctionDoc(declaration, typeString, checker, jsDocObject)`:
signature line, then — for a variable declaration whose resolved JSDoc
has a tag array — the JSDoc-based parameter rendering, otherwise the
AST-based type parameter and parameter rendering plus the tag blocks. -/
def generateFunctionDoc (d : Decl) (ts : Str) (jsDocObject : Option JSDocC) : Str :=
  let sig := "**Signature:** \x60".data ++ ts ++ "\x60\n\n".data
  let resolvedJSDoc := match jsDocObject with
    | some j => some j
    | none => d.jsDoc
  let useJSDocPath := d.kind == SynKind.variableDeclaration &&
    (match resolvedJSDoc with
     | some j => j.tags.isSome
     | none => false)
  if useJSDocPath then
    sig ++ generateJSDocBasedFunctionDoc (match resolvedJSDoc with
      | some j => j
      | none => { comment := none, tags := none })
  else
    sig ++
    (if d.typeParameters.length > 0 then
       generateTypeParameters d.typeParameters resolvedJSDoc
     else []) ++
    (if d.parameters.length > 0 then generateParameters d.parameters d.jsDoc else []) ++
    generateJSDocTags resolvedJSDoc

/-- `repoUrl.replace(/\/$/, '')`. -/
def stripTrailingSlash (s : Str) : Str :=
  match s.reverse with
  | '/' :: rest => rest.reverse
  | _ => s

/-- Decimal rendering of the line number. -/
def natToStr (n : Nat) : Str := (Nat.repr n).data

/-- `generateDeepLink(repoUrl, filePath, lineNumber)`.  `gitOut` is the
outcome of ``execSync(`git ls-files --full-name "<filePath>"`)``: its
stdout on success, or a raised error — which this function does NOT
catch, it propagates to the caller.  An untracked file gives empty
trimmed output and the link degrades to `undefined`. -/
def generateDeepLink (repoUrl : Str) (lineNumber : Nat) (gitOut : Except Unit Str) :
    Except Unit (Option Str) :=
  match gitOut with
  | Except.error e => Except.error e
  | Except.ok out =>
    let relativePath := trimStr out
    if relativePath.isEmpty then Except.ok none
    else
      let baseUrl := stripTrailingSlash repoUrl
      if containsStr baseUrl "://gitlab.com".data
          || containsStr baseUrl "://www.gitlab.com".data then
        Except.ok (some (baseUrl ++ "/-/blob/main/".data ++ relativePath ++ "#L".data
          ++ natToStr lineNumber))
      else
        Except.ok (some (baseUrl ++ "/blob/main/".data ++ relativePath ++ "#L".data
          ++ natToStr lineNumber))

/-- The context shared by the deep-link call sites: the optional
`repoUrl` argument, and the `git ls-files` outcome for the documented
source file (`sourceFile.fileName`, identical for every symbol and
member of one generation run). -/
structure LinkCtx where
  repoUrl : Option Str
  gitOut : Except Unit Str
deriving Repr

/-- `className.charAt(0).toLowerCase() + className.slice(1)`. -/
def lowerFirst : Str → Str
  | [] => []
  | c :: rest => c.toLower :: rest

/-- The label of a symbol or member, optionally wrapped in a markdown
deep link: the `if (repoUrl && ...)` block shared by `generateSymbolDoc`
and `generateClassMemberDoc`.  A thrown `execSync` error propagates. -/
def linkedLabel (label : Str) (ctx : LinkCtx) (line : Nat) : Except Unit Str :=
  if jsTruthy ctx.repoUrl then
    match generateDeepLink (jsOrEmpty ctx.repoUrl) line ctx.gitOut with
    | Except.error e => Except.error e
    | Except.ok (some dl) => Except.ok ("[".data ++ label ++ "](".data ++ dl ++ ")".data)
    | Except.ok none => Except.ok label
  else Except.ok label

/-- `generateClassMemberDoc(member, checker, isStatic, headingPrefix,
className, sourceFile, repoUrl)`.  The deep-link call is not inside the
`try`; only the checker lookups are, and a throwing checker degrades to
`*Type information unavailable*`. -/
def generateClassMemberDoc (m : Member) (ctx : LinkCtx) (isStatic : Bool)
    (hdMarks className : Str) : Except Unit Str :=
  let memberName := match m.name with
    | some nm =>
      if nm.isEmpty then
        (if m.kind == SynKind.constructSignature then "new".data else "unknown".data)
      else nm
    | none => if m.kind == SynKind.constructSignature then "new".data else "unknown".data
  let namePart := (if isStatic then className else lowerFirst className) ++ ".".data ++ memberName
  match linkedLabel (getMemberType m isStatic) ctx m.line with
  | Except.error e => Except.error e
  | Except.ok memberType =>
    let headLine := hdMarks ++ "# ".data ++ namePart ++ " · ".data ++ memberType ++ "\n\n".data
    let jsDocObject := extractJSDoc m.toDocNode
    let commentPart := match jsDocObject with
      | some j => if jsTruthy j.comment then jsOrEmpty j.comment ++ "\n\n".data else []
      | none => []
    let bodyPart := match m.typeRes with
      | MemberTypeRes.thrown => "*Type information unavailable*\n\n".data
      | MemberTypeRes.noSymbol => []
      | MemberTypeRes.found ts =>
        if m.kind == SynKind.methodDeclaration then
          "**Signature:** \x60".data ++ ts ++ "\x60\n\n".data ++
          generateParameters m.parameters m.jsDoc ++
          generateJSDocTags jsDocObject
        else
          "**Type:** \x60".data ++ ts ++ "\x60\n\n".data ++
          (match jsDocObject with
           | some j =>
             (match j.tags with
              | some tags =>
                (let exampleTags := tags.filter (fun t => t.tagName == "example".data)
                 if exampleTags.length > 0 then
                   "**Examples:**\n\n".data ++
                     (exampleTags.map (fun t => jsInterp t.comment ++ "\n\n".data)).flatten
                 else [])
              | none => [])
           | none => [])
    Except.ok (headLine ++ commentPart ++ bodyPart)

/-- `publicMembers`: members whose name does not start with `_`
(an unnamed member passes, since the optional chain short-circuits the
whole `startsWith` call) and that are not the class constructor. -/
def publicMembersOf (d : Decl) : List Member :=
  d.members.filter (fun m =>
    !(match m.name with
      | some nm => startsWithStr "_".data nm
      | none => false) && m.kind != SynKind.ctorDecl)

def staticMembersOf (d : Decl) : List Member :=
  (publicMembersOf d).filter (fun m => m.modifiers.contains Modifier.staticKw)

def instanceMembersOf (d : Decl) : List Member :=
  (publicMembersOf d).filter (fun m => !(m.modifiers.contains Modifier.staticKw))

/-- `[...staticMembers, ...instanceMembers]` — static members first, in
declaration order, then instance members in declaration order. -/
def orderedMembersOf (d : Decl) : List Member :=
  staticMembersOf d ++ instanceMembersOf d

/-- The `Constructor Parameters` block: from the `@param` tags of the
JSDoc of the first member of kind `Constructor`, when present. -/
def constructorParamsBlock (d : Decl) : Str :=
  match d.members.find? (fun m => m.kind == SynKind.ctorDecl) with
  | none => []
  | some ctor =>
    match extractJSDoc ctor.toDocNode with
    | none => []
    | some jd =>
      match jd.tags with
      | none => []
      | some tags =>
        let paramTags := tags.filter (fun t => t.tagName == "param".data)
        if paramTags.length > 0 then
          "**Constructor Parameters:**\n\n".data ++
          (paramTags.map (fun t =>
            "- \x60".data ++ jsOrStr t.name "unknown".data ++ "\x60: ".data
              ++ jsOrEmpty t.comment ++ "\n".data)).flatten ++ "\n".data
        else []

/-- `generateClassDoc(declaration, typeString, checker, headingPrefix,
className, sourceFile, repoUrl)`.  A variable declaration referencing a
class renders as a bare type line; otherwise type parameters, class
tags, the constructor parameter block and the member sub-fragments.
`isStatic` is passed as membership in the static list, which holds
exactly the members carrying a `static` modifier. -/
def generateClassDoc (d : Decl) (ts : Str) (ctx : LinkCtx) (hdMarks className : Str) :
    Except Unit Str :=
  if d.kind == SynKind.variableDeclaration then
    Except.ok ("**Type:** \x60".data ++ ts ++ "\x60\n\n".data)
  else
    let typeParamsPart :=
      if d.typeParameters.length > 0 then
        generateTypeParameters d.typeParameters (extractJSDoc d.toDocNode)
      else []
    let tagsPart := generateJSDocTags (extractJSDoc d.toDocNode)
    let ctorPart := constructorParamsBlock d
    match (orderedMembersOf d).mapM (fun m =>
        generateClassMemberDoc m ctx (m.modifiers.contains Modifier.staticKw)
          hdMarks className) with
    | Except.error e => Except.error e
    | Except.ok memberDocs =>
      Except.ok (typeParamsPart ++ tagsPart ++ ctorPart ++ memberDocs.flatten)

/-- `generateTypeSpecificDoc(declaration, typeString, ...)`.  The
`if (!typeString)` guard is JS truthiness (null or empty type string
renders the unavailable placeholder). -/
def generateTypeSpecificDoc (d : Decl) (typeString : Option Str)
    (jsDocObject : Option JSDocC) (ctx : LinkCtx) (hdMarks name : Str) :
    Except Unit Str :=
  if !jsTruthy typeString then Except.ok "*Type information unavailable*\n\n".data
  else
    let ts := jsOrEmpty typeString
    if d.kind == SynKind.variableDeclaration &&
        (containsStr ts "=>".data || startsWithStr "(".data ts) then
      Except.ok (generateFunctionDoc d ts jsDocObject)
    else if d.kind == SynKind.variableDeclaration && startsWithStr "typeof ".data ts then
      generateClassDoc d ts ctx hdMarks name
    else
      match d.kind with
      | SynKind.functionDeclaration => Except.ok (generateFunctionDoc d ts jsDocObject)
      | SynKind.classDeclaration => generateClassDoc d ts ctx hdMarks name
      | SynKind.interfaceDeclaration => generateClassDoc d ts ctx hdMarks name
      | SynKind.typeAliasDeclaration =>
        Except.ok ("**Type:** \x60".data ++
          (match d.typeNodeText with
           | some t => t
           | none => ts) ++ "\x60\n\n".data)
      | _ => Except.ok ("**Value:** \x60".data ++ ts ++ "\x60\n\n".data)

/-- `generateSymbolDoc(name, symbol, checker, headingPrefix, sourceFile,
repoUrl)` after `resolveSymbol`: `decl` is the resolved declaration,
`exportDecl` the original export declaration (kept for documentation
lookup), `typeInfo` the `getTypeInfo` oracle result (`null` when
`typeToString` threw).  The JSDoc used is the export declaration's
first, then the resolved declaration's. -/
def generateSymbolDoc (name : Str) (decl : Option Decl) (exportDecl : Option Decl)
    (typeInfo : Option Str) (ctx : LinkCtx) (hdMarks : Str) : Except Unit Str :=
  match decl with
  | none => Except.ok (hdMarks ++ " ".data ++ name ++ "\n\n*No declaration found*\n\n".data)
  | some d =>
    match linkedLabel (getTypeLabel d typeInfo) ctx d.line with
    | Except.error e => Except.error e
    | Except.ok typeLabel =>
      let headLine := hdMarks ++ " ".data ++ name ++ " · ".data ++ typeLabel ++ "\n\n".data
      let jsDocObject := match extractJSDocOpt exportDecl with
        | some j => some j
        | none => extractJSDocOpt (some d)
      let commentPart := match jsDocObject with
        | some j => if jsTruthy j.comment then jsOrEmpty j.comment ++ "\n\n".data else []
        | none => []
      match generateTypeSpecificDoc d typeInfo jsDocObject ctx hdMarks name with
      | Except.error e => Except.error e
      | Except.ok body => Except.ok (headLine ++ commentPart ++ body)

/-! ## Concrete instances used by witnesses and counterexamples -/

deriving instance DecidableEq for Except

/-- Search phrase for the splicer examples. -/
def c1phrase : Str := "P".data

/-- A document with two markers where the first marker's region (which
runs to the end of the document, there being no headings) contains the
second marker. -/
def c1doc : Str := "x\nP a:\ny\nP b:\nzzzz\n".data

/-- A generator producing a realistic fragment per source file. -/
def c1gen : Str → Str → Str := fun src _ =>
  if src = "a".data then "### A · function\n\n".data else "### B · function\n\n".data

/-- A single-marker document. -/
def w3doc : Str := "x\nP a:\nold\n".data

/-- A generator that always succeeds. -/
def w3gen : Str → Str → Option Str := fun _ _ => some "A\n".data

/-- The (unique) marker match of `w3doc`. -/
def w3match : MarkerMatch :=
  { index := 0, length := 7, headingHashes := none,
    beforeSearch := "x\nP a:\n".data, sourceFile := "a".data }

/-- The spliced result of the pass over `w3doc`. -/
def w3out : Str := "x\nP a:\n\nA\n".data

/-- The parent chain of a `const` variable declaration: the declaration
itself (no flags), the declaration list (Const flag set), the variable
statement. -/
def sampleConstChain : List AncNode :=
  [ { kind := SynKind.variableDeclaration, constFlag := false, declListConstFlag := false },
    { kind := SynKind.otherKind, constFlag := true, declListConstFlag := false },
    { kind := SynKind.variableStatement, constFlag := false, declListConstFlag := true } ]

/-- `export const answer = 42` with its doc comment on the enclosing
statement. -/
def answerDecl : Decl :=
  { kind := SynKind.variableDeclaration, modifiers := [], constChain := sampleConstChain,
    jsDoc := none, parentJsDoc := none,
    grandparentJsDoc := some { comment := some "The universe and everything...".data, tags := none },
    typeParameters := [], parameters := [], members := [], typeNodeText := none, line := 2 }

/-- A `const` variable declaration with no documentation anywhere. -/
def bareVarDecl : Decl :=
  { kind := SynKind.variableDeclaration, modifiers := [], constChain := sampleConstChain,
    jsDoc := none, parentJsDoc := none, grandparentJsDoc := none,
    typeParameters := [], parameters := [], members := [], typeNodeText := none, line := 4 }

/-- A link context with no repository URL configured. -/
def noLinkCtx : LinkCtx := { repoUrl := none, gitOut := Except.ok [] }

/-- A link context whose `git ls-files` invocation raises. -/
def linkErrCtx : LinkCtx :=
  { repoUrl := some "https://github.com/me/example".data, gitOut := Except.error () }

/-- A private (underscore-named) property member. -/
def internalMember : Member :=
  { kind := SynKind.propertyDeclaration, name := some "_internal".data, modifiers := [],
    jsDoc := none, parentJsDoc := none, grandparentJsDoc := none, parameters := [],
    typeRes := MemberTypeRes.noSymbol, line := 3 }

/-- A class constructor with documented parameters. -/
def ctorMember : Member :=
  { kind := SynKind.ctorDecl, name := none, modifiers := [],
    jsDoc := some
      { comment := none,
        tags := some [ { tagName := "param".data, name := some "precision".data,
                         comment := some "Number of decimal places".data } ] },
    parentJsDoc := none, grandparentJsDoc := none, parameters := [],
    typeRes := MemberTypeRes.noSymbol, line := 7 }

/-- A public instance method member. -/
def roundMember : Member :=
  { kind := SynKind.methodDeclaration, name := some "round".data, modifiers := [],
    jsDoc := none, parentJsDoc := none, grandparentJsDoc := none,
    parameters := [ { name := "value".data, type := some "number".data,
                      questionToken := false, hasInitExpr := false } ],
    typeRes := MemberTypeRes.found "(value: number) => number".data, line := 9 }

/-- A class with a private member, a documented constructor and a
public method. -/
def mathUtilsDecl : Decl :=
  { kind := SynKind.classDeclaration, modifiers := [],
    constChain := [ { kind := SynKind.classDeclaration, constFlag := false,
                      declListConstFlag := false } ],
    jsDoc := some { comment := some "A utility class".data, tags := none },
    parentJsDoc := none, grandparentJsDoc := none,
    typeParameters := [], parameters := [], members := [internalMember, ctorMember, roundMember],
    typeNodeText := none, line := 1 }

/-- A minimal property member for the heading-depth witness. -/
def plainPropMember : Member :=
  { kind := SynKind.propertyDeclaration, name := some "x".data, modifiers := [],
    jsDoc := none, parentJsDoc := none, grandparentJsDoc := none, parameters := [],
    typeRes := MemberTypeRes.noSymbol, line := 5 }

/-- The documentation-search candidates of one node, in the order the
extractor visits them. -/
def jsDocSearchList (n : DocNode) : List (Option JSDocC) :=
  [n.jsDoc] ++
    (if n.kind == SynKind.variableDeclaration then [n.parentJsDoc, n.grandparentJsDoc] else [])

/-- The end of a marker's region, as the source computes it: the next
heading of depth at most the marker's base level after the marker, on
the ORIGINAL document text. -/
def regionEnd (readme : Str) (m : MarkerMatch) : Nat :=
  findNextHeadingBoundary readme (m.index + m.length) (markerBase m)

/-- The document in which every marker region has been replaced in
place: untouched text from position `p` up to each marker, the marker's
preserved text plus a blank line plus its freshly generated content,
and after the last region the untouched tail.  `none` when generation
fails for some marker. -/
def expectedSplice (gen : Str → Str → Option Str) (readme : Str) :
    List MarkerMatch → Nat → Option Str
  | [], p => some (readme.drop p)
  | m :: rest, p =>
    match gen m.sourceFile (hashMarks (markerBase m + 1)) with
    | none => none
    | some g =>
      match expectedSplice gen readme rest (regionEnd readme m) with
      | none => none
      | some tail =>
        some ((readme.drop p).take (m.index - p) ++ markerReplacement m g ++ tail)

/-- The earlier (first) of the two nested markers of `c1doc`. -/
def c3matchA : MarkerMatch :=
  { index := 0, length := 7, headingHashes := none,
    beforeSearch := "x\nP a:\n".data, sourceFile := "a".data }

/-- The document written by the pass over `c1doc`: the earlier marker's
region carries a stale tail of the nested later marker's old content. -/
def c3badOut : Str := "x\nP a:\n\n### A · function\n\nB · function\n\n".data

/-- A document whose two marker regions are disjoint: the first region
is closed off by a level-1 heading before the second marker. -/
def c3disjointDoc : Str := "x\nP a:\nold\n# Sep\ny\nP b:\nmore\n".data

/-- A total generator for the disjoint-regions document. -/
def c3disjointGen : Str → Str → Option Str :=
  fun src _ => some (if src = "a".data then "GA\n".data else "GB\n".data)

/-- The pass result over `c3disjointDoc`. -/
def c3disjointOut : Str := "x\nP a:\n\nGA\n# Sep\ny\nP b:\n\nGB\n".data

/-! ## Helper lemmas about the string primitives -/

theorem runLength_le (p : Char → Bool) : ∀ s : Str, runLength p s ≤ s.length := by
  intro s
  induction s with
  | nil => simp [runLength]
  | cons c cs ih =>
    simp only [runLength, List.length_cons]
    split <;> omega

theorem startsWithStr_length {pre s : Str} (h : startsWithStr pre s = true) :
    pre.length ≤ s.length := by
  induction pre generalizing s with
  | nil => simp
  | cons a as ih =>
    cases s with
    | nil => simp [startsWithStr] at h
    | cons b bs =>
      simp only [startsWithStr, Bool.and_eq_true] at h
      have := ih h.2
      simp only [List.length_cons]
      omega

theorem idxOfNewline_lt {s : Str} {d : Nat} (h : idxOfNewline s = some d) :
    d < s.length := by
  induction s generalizing d with
  | nil => exact Option.noConfusion h
  | cons c cs ih =>
    simp only [idxOfNewline] at h
    split at h
    · cases h; simp
    · cases hx : idxOfNewline cs with
      | none => rw [hx] at h; simp at h
      | some d0 =>
        rw [hx] at h
        simp only [Option.map_some'] at h
        cases h
        have := ih hx
        simp only [List.length_cons]
        omega

theorem firstHit_some {l : List Nat} {f : Nat → Option α} {y : α}
    (h : firstHit l f = some y) : ∃ x ∈ l, f x = some y := by
  induction l with
  | nil => simp [firstHit] at h
  | cons x xs ih =>
    simp only [firstHit] at h
    cases hx : f x with
    | some z => rw [hx] at h; cases h; exact ⟨x, by simp, hx⟩
    | none =>
      rw [hx] at h
      obtain ⟨x0, hm, hf⟩ := ih h
      exact ⟨x0, by simp [hm], hf⟩

theorem get?_some_lt {s : Str} {n : Nat} {c : Char} (h : s.get? n = some c) :
    n < s.length := by
  by_contra hn
  rw [List.get?_eq_none.mpr (by omega)] at h
  cases h

/-! ## Lemmas about the marker scanner -/

theorem matchAfterPhrase_bound {rest : Str} {c : Nat} {tok : Str}
    (h : matchAfterPhrase rest = some (c, tok)) : 1 ≤ c ∧ c ≤ rest.length := by
  unfold matchAfterPhrase at h
  obtain ⟨t1, -, h1⟩ := firstHit_some h
  try simp only at h1
  obtain ⟨t2, -, h2⟩ := firstHit_some h1
  try simp only at h2
  obtain ⟨t3, -, h3⟩ := firstHit_some h2
  try simp only at h3
  split at h3
  · rename_i hget
    have hlt : t3 < ((rest.drop t1).drop t2).length := get?_some_lt hget
    simp only [List.length_drop] at hlt
    cases h3
    omega
  · exact Option.noConfusion h3

theorem matchGroup3_bound {phrase s : Str} {c : Nat} {tok : Str}
    (h : matchGroup3 phrase s = some (c, tok)) : 1 ≤ c ∧ c ≤ s.length := by
  unfold matchGroup3 at h
  cases hd : idxOfNewline s with
  | none => rw [hd] at h; exact Option.noConfusion h
  | some d =>
    rw [hd] at h
    try simp only at h
    split at h
    · rename_i hsw
      have hdlt : d < s.length := idxOfNewline_lt hd
      have hph : phrase.length ≤ (s.drop (d + 1)).length := startsWithStr_length hsw
      simp only [List.length_drop] at hph
      split at h
      · rename_i c0 tok0 hmp
        have hb := matchAfterPhrase_bound hmp
        simp only [List.length_drop] at hb
        cases h
        omega
      · exact Option.noConfusion h
    · exact Option.noConfusion h

theorem branchAAt_spec {phrase text : Str} {p : Nat} {m : MarkerMatch}
    (h : branchAAt phrase text p = some m) :
    m.index = p ∧ 1 ≤ m.length ∧ p + m.length ≤ text.length := by
  unfold branchAAt at h
  split at h
  · try simp only at h
    split at h
    · obtain ⟨sLen, -, h1⟩ := firstHit_some h
      try simp only at h1
      split at h1
      · rename_i g tok hg
        have hb := matchGroup3_bound hg
        simp only [List.length_drop] at hb
        cases h1
        refine ⟨rfl, ?_, ?_⟩ <;> simp only [] <;> omega
      · exact Option.noConfusion h1
    · exact Option.noConfusion h
  · exact Option.noConfusion h

theorem tryMatchAt_spec {phrase text : Str} {p : Nat} {m : MarkerMatch}
    (h : tryMatchAt phrase text p = some m) :
    m.index = p ∧ 1 ≤ m.length ∧ p + m.length ≤ text.length := by
  unfold tryMatchAt at h
  cases hA : branchAAt phrase text p with
  | some mA =>
    rw [hA] at h
    cases h
    exact branchAAt_spec hA
  | none =>
    rw [hA] at h
    try simp only at h
    cases hg : matchGroup3 phrase (text.drop p) with
    | none => rw [hg] at h; exact Option.noConfusion h
    | some pr =>
      obtain ⟨g, tok⟩ := pr
      rw [hg] at h
      try simp only at h
      have hb := matchGroup3_bound hg
      simp only [List.length_drop] at hb
      cases h
      refine ⟨rfl, ?_, ?_⟩ <;> simp only [] <;> omega

theorem scanForMatch_spec {phrase text : Str} :
    ∀ {n p : Nat} {m : MarkerMatch}, scanForMatch phrase text p n = some m →
      p ≤ m.index ∧ tryMatchAt phrase text m.index = some m := by
  intro n
  induction n with
  | zero => intro p m h; exact Option.noConfusion h
  | succ n ih =>
    intro p m h
    unfold scanForMatch at h
    cases ht : tryMatchAt phrase text p with
    | some m0 =>
      rw [ht] at h
      cases h
      have := (tryMatchAt_spec ht).1
      exact ⟨by omega, by rw [this]; exact ht⟩
    | none =>
      rw [ht] at h
      have := ih h
      exact ⟨by omega, this.2⟩

theorem firstMatchFrom_spec {phrase text : Str} {pos : Nat} {m : MarkerMatch}
    (h : firstMatchFrom phrase text pos = some m) :
    pos ≤ m.index ∧ tryMatchAt phrase text m.index = some m := by
  exact scanForMatch_spec h

theorem scanFrom_mem {phrase text : Str} :
    ∀ {fuel pos : Nat} {m : MarkerMatch}, m ∈ scanFrom phrase text fuel pos →
      pos ≤ m.index ∧ m.index + m.length ≤ text.length ∧ 1 ≤ m.length := by
  intro fuel
  induction fuel with
  | zero => intro pos m h; exact absurd h (by simp [scanFrom])
  | succ fuel ih =>
    intro pos m h
    unfold scanFrom at h
    cases hf : firstMatchFrom phrase text pos with
    | none => rw [hf] at h; exact absurd h (by simp)
    | some m0 =>
      rw [hf] at h
      have hspec := firstMatchFrom_spec hf
      have hb := tryMatchAt_spec hspec.2
      rcases List.mem_cons.mp h with rfl | htail
      · exact ⟨hspec.1, hb.2.2, hb.2.1⟩
      · have := ih htail
        refine ⟨?_, this.2.1, this.2.2⟩
        omega

theorem scanFrom_pairwise {phrase text : Str} :
    ∀ {fuel pos : Nat}, (scanFrom phrase text fuel pos).Pairwise
      (fun a b => a.index + a.length ≤ b.index) := by
  intro fuel
  induction fuel with
  | zero => intro pos; simp [scanFrom]
  | succ fuel ih =>
    intro pos
    unfold scanFrom
    cases hf : firstMatchFrom phrase text pos with
    | none => simp
    | some m0 =>
      refine List.Pairwise.cons ?_ ih
      intro b hb
      exact (scanFrom_mem hb).1

theorem findMatches_mem {phrase text : Str} {m : MarkerMatch}
    (h : m ∈ findMatches phrase text) :
    m.index + m.length ≤ text.length ∧ 1 ≤ m.length :=
  ⟨(scanFrom_mem h).2.1, (scanFrom_mem h).2.2⟩

theorem findMatches_pairwise (phrase text : Str) :
    (findMatches phrase text).Pairwise (fun a b => a.index + a.length ≤ b.index) :=
  scanFrom_pairwise

/-! ## Lemmas about the splice pass -/

theorem spliceStep_some {gen : Str → Str → Option Str} {readme : Str}
    {m : MarkerMatch} {u v : Str} (h : spliceStep gen readme m u = some v) :
    ∃ g, gen m.sourceFile (hashMarks (markerBase m + 1)) = some g ∧
      v = u.take m.index ++ markerReplacement m g ++
        u.drop (findNextHeadingBoundary readme (m.index + m.length) (markerBase m)) := by
  unfold spliceStep at h
  try simp only at h
  cases hg : gen m.sourceFile (hashMarks (markerBase m + 1)) with
  | none => rw [hg] at h; exact Option.noConfusion h
  | some g =>
    rw [hg] at h
    try simp only at h
    cases h
    exact ⟨g, rfl, rfl⟩

theorem spliceStep_none {gen : Str → Str → Option Str} {readme : Str}
    {m : MarkerMatch} {u : Str}
    (hg : gen m.sourceFile (hashMarks (markerBase m + 1)) = none) :
    spliceStep gen readme m u = none := by
  simp only [spliceStep]
  rw [hg]

theorem splicePass_some_gen {gen : Str → Str → Option Str} {readme : Str} :
    ∀ {L : List MarkerMatch} {u v : Str}, splicePass gen readme L u = some v →
      ∀ m ∈ L, gen m.sourceFile (hashMarks (markerBase m + 1)) ≠ none := by
  intro L
  induction L with
  | nil => intro u v _ m hm; exact absurd hm (by simp)
  | cons m0 rest ih =>
    intro u v h m hm
    unfold splicePass at h
    cases hs : spliceStep gen readme m0 u with
    | none => rw [hs] at h; exact Option.noConfusion h
    | some w =>
      rw [hs] at h
      rcases List.mem_cons.mp hm with rfl | htail
      · obtain ⟨g, hg, -⟩ := spliceStep_some hs
        rw [hg]; exact Option.noConfusion
      · exact ih h m htail

theorem splicePass_append {gen : Str → Str → Option Str} {readme : Str} :
    ∀ {l1 l2 : List MarkerMatch} {u v : Str},
      splicePass gen readme (l1 ++ l2) u = some v →
      ∃ w, splicePass gen readme l1 u = some w ∧ splicePass gen readme l2 w = some v := by
  intro l1
  induction l1 with
  | nil => intro l2 u v h; exact ⟨u, rfl, h⟩
  | cons m0 rest ih =>
    intro l2 u v h
    rw [List.cons_append] at h
    unfold splicePass at h
    cases hs : spliceStep gen readme m0 u with
    | none => rw [hs] at h; exact Option.noConfusion h
    | some w0 =>
      rw [hs] at h
      obtain ⟨w, hw1, hw2⟩ := ih h
      refine ⟨w, ?_, hw2⟩
      unfold splicePass
      rw [hs]
      exact hw1

theorem splicePass_frame {gen : Str → Str → Option Str} {readme : Str} {i : Nat} :
    ∀ {L : List MarkerMatch} {u v : Str},
      (∀ m ∈ L, i ≤ m.index) → i ≤ u.length →
      splicePass gen readme L u = some v →
      v.take i = u.take i ∧ i ≤ v.length := by
  intro L
  induction L with
  | nil => intro u v _ hlen h; cases h; exact ⟨rfl, hlen⟩
  | cons m0 rest ih =>
    intro u v hmem hlen h
    unfold splicePass at h
    cases hs : spliceStep gen readme m0 u with
    | none => rw [hs] at h; exact Option.noConfusion h
    | some w =>
      rw [hs] at h
      obtain ⟨g, -, hw⟩ := spliceStep_some hs
      have hi0 : i ≤ m0.index := hmem m0 (by simp)
      have htake : w.take i = u.take i := by
        rw [hw]
        have hlen1 : i ≤ (u.take m0.index).length := by
          simp only [List.length_take]
          omega
        rw [List.append_assoc, List.take_append_of_le_length hlen1, List.take_take,
          min_eq_left hi0]
      have hwlen : i ≤ w.length := by
        rw [hw]
        simp only [List.length_append, List.length_take]
        omega
      have := ih (fun m hm => hmem m (by simp [hm])) hwlen h
      exact ⟨by rw [this.1, htake], this.2⟩

/-! ## String containment lemmas -/

theorem startsWithStr_append_self : ∀ (pre rest : Str), startsWithStr pre (pre ++ rest) = true := by
  intro pre
  induction pre with
  | nil => intro rest; rfl
  | cons a as ih => intro rest; simp [startsWithStr, ih]

theorem containsStr_append_middle (a needle rest : Str) :
    containsStr (a ++ (needle ++ rest)) needle = true := by
  unfold containsStr
  rw [List.any_eq_true]
  refine ⟨a.length, ?_, ?_⟩
  · rw [List.mem_range]
    simp only [List.length_append]
    omega
  · rw [List.drop_left]
    exact startsWithStr_append_self needle rest

theorem containsStr_append_right (a needle : Str) :
    containsStr (a ++ needle) needle = true := by
  have := containsStr_append_middle a needle []
  simpa using this

/-! ## Claims about the document splicer -/

/-- C4: for a document with zero occurrences of the configured search
phrase the pass terminates with exit code 1 and a stderr message naming
the phrase and the file, and nothing is written back (the on-disk
content stays unchanged). -/
theorem zeroMarkers_terminal (gen : Str → Str → Option Str) (phrase path readme : Str)
    (h : findMatches phrase readme = []) :
    runPass gen phrase path readme =
      { exitCode := 1, written := none,
        stderr := some ("Could not find any \"".data ++ phrase ++ "\" markers in ".data ++ path) }
    ∧ containsStr
        ("Could not find any \"".data ++ phrase ++ "\" markers in ".data ++ path) phrase = true
    ∧ containsStr
        ("Could not find any \"".data ++ phrase ++ "\" markers in ".data ++ path) path = true
    ∧ writtenContent (updateReadmeModel gen phrase readme) = none := by
  have hm : updateReadmeModel gen phrase readme = PassResult.noMarkers := by
    unfold updateReadmeModel
    rw [h]
    rfl
  refine ⟨?_, ?_, ?_, ?_⟩
  · unfold runPass
    rw [hm]
  · have := containsStr_append_middle "Could not find any \"".data phrase
      ("\" markers in ".data ++ path)
    simpa [List.append_assoc] using this
  · have := containsStr_append_right
      ("Could not find any \"".data ++ phrase ++ "\" markers in ".data) path
    simpa [List.append_assoc] using this
  · rw [hm]
    rfl

theorem zeroMarkers_terminal_witness :
    runPass w3gen "Q".data "README.md".data "hello\n".data =
      { exitCode := 1, written := none,
        stderr := some ("Could not find any \"".data ++ "Q".data
          ++ "\" markers in ".data ++ "README.md".data) } :=
  (zeroMarkers_terminal w3gen "Q".data "README.md".data "hello\n".data (by decide)).1

/-- C2: if documentation generation fails for any marker (in particular
when the oracle reports no exports and `generateMarkdownDoc` throws),
the whole pass aborts before any write: nothing is written back, so the
target document keeps its previous content. -/
theorem genFailure_noWrite (gen : Str → Str → Option Str) (phrase readme : Str)
    (h : ∃ m ∈ findMatches phrase readme,
        gen m.sourceFile (hashMarks (markerBase m + 1)) = none) :
    writtenContent (updateReadmeModel gen phrase readme) = none := by
  obtain ⟨m, hm, hg⟩ := h
  simp only [updateReadmeModel]
  split
  · rfl
  · cases hp : splicePass gen readme (findMatches phrase readme).reverse readme with
    | none => rfl
    | some u => exact absurd hg (splicePass_some_gen hp m (List.mem_reverse.mpr hm))

theorem genFailure_noWrite_witness :
    writtenContent (updateReadmeModel (fun _ _ => (none : Option Str)) c1phrase w3doc) = none :=
  genFailure_noWrite (fun _ _ => none) c1phrase w3doc ⟨w3match, by decide, rfl⟩

/-- C1 (claimed idempotence — refuted): over `c1doc`, whose first
marker region contains the second marker, the splice is NOT idempotent:
the first pass leaves a stale tail (`B · function\n\n` without its
heading) because each region end is computed on the original document
but the splice is applied to the updated document; the second pass then
removes that tail, so the second run's output differs from the first's. -/
theorem spliceTwice_not_idempotent :
    spliceAllTotal c1gen c1phrase c1doc =
      "x\nP a:\n\n### A · function\n\nB · function\n\n".data
    ∧ spliceAllTotal c1gen c1phrase (spliceAllTotal c1gen c1phrase c1doc) =
      "x\nP a:\n\n### A · function\n\n".data
    ∧ spliceAllTotal c1gen c1phrase (spliceAllTotal c1gen c1phrase c1doc) ≠
      spliceAllTotal c1gen c1phrase c1doc :=
  ⟨by decide, by decide, by decide⟩

/-! ## Region boundaries and the exact shape of a fully spliced pass -/

theorem boundaryScan_le (text : Str) (maxLevel : Nat) :
    ∀ (n p : Nat), p + n ≤ text.length + 1 → boundaryScan text maxLevel p n ≤ text.length := by
  intro n
  induction n with
  | zero => intro p _; exact le_refl _
  | succ n ih =>
    intro p hp
    unfold boundaryScan
    split
    · split
      · omega
      · exact ih (p + 1) (by omega)
    · exact ih (p + 1) (by omega)

theorem boundaryScan_ge (text : Str) (maxLevel : Nat) :
    ∀ (n p : Nat), p ≤ boundaryScan text maxLevel p n ∨
      boundaryScan text maxLevel p n = text.length := by
  intro n
  induction n with
  | zero => intro p; exact Or.inr rfl
  | succ n ih =>
    intro p
    unfold boundaryScan
    split
    · split
      · exact Or.inl (le_refl p)
      · rcases ih (p + 1) with h | h
        · exact Or.inl (by omega)
        · exact Or.inr h
    · rcases ih (p + 1) with h | h
      · exact Or.inl (by omega)
      · exact Or.inr h

theorem findNextHeadingBoundary_ge {text : Str} {s maxLevel : Nat} (hs : s ≤ text.length) :
    s ≤ findNextHeadingBoundary text s maxLevel := by
  unfold findNextHeadingBoundary
  rcases boundaryScan_ge text maxLevel (text.length + 1 - s) s with h | h
  · exact h
  · rw [h]
    exact hs

theorem findNextHeadingBoundary_le {text : Str} {s maxLevel : Nat} (hs : s ≤ text.length) :
    findNextHeadingBoundary text s maxLevel ≤ text.length := by
  unfold findNextHeadingBoundary
  exact boundaryScan_le text maxLevel _ s (by omega)

theorem regionEnd_ge {readme : Str} {m : MarkerMatch}
    (h : m.index + m.length ≤ readme.length) :
    m.index + m.length ≤ regionEnd readme m :=
  findNextHeadingBoundary_ge h

theorem regionEnd_le {readme : Str} {m : MarkerMatch}
    (h : m.index + m.length ≤ readme.length) :
    regionEnd readme m ≤ readme.length :=
  findNextHeadingBoundary_le h

theorem chain_regionEnd_forall {readme : Str} :
    ∀ {m : MarkerMatch} {rest : List MarkerMatch},
      List.Chain' (fun a b => regionEnd readme a ≤ b.index) (m :: rest) →
      (∀ x ∈ m :: rest, x.index + x.length ≤ readme.length) →
      ∀ m' ∈ rest, regionEnd readme m ≤ m'.index := by
  intro m rest
  induction rest generalizing m with
  | nil =>
    intro _ _ m' hm'
    exact absurd hm' (by simp)
  | cons b rest ih =>
    intro hchain hbound m' hm'
    have hmb : regionEnd readme m ≤ b.index := (List.chain'_cons.mp hchain).1
    rcases List.mem_cons.mp hm' with rfl | htail
    · exact hmb
    · have hb2 := ih (List.chain'_cons.mp hchain).2
        (fun x hx => hbound x (List.mem_cons_of_mem m hx)) m' htail
      have hbb : b.index + b.length ≤ readme.length :=
        hbound b (by simp)
      have := regionEnd_ge hbb
      omega

/-- Processing a region-disjoint match list in reverse order over the
original document produces exactly the in-place replacement of every
region: `expectedSplice` from any position `q` before all of the
matches. -/
theorem splicePass_expected {gen : Str → Str → Option Str} {readme : Str} :
    ∀ (L : List MarkerMatch) (q : Nat) (T : Str),
      (∀ m ∈ L, m.index + m.length ≤ readme.length) →
      List.Chain' (fun a b => regionEnd readme a ≤ b.index) L →
      (∀ m ∈ L, q ≤ m.index) → q ≤ readme.length →
      splicePass gen readme L.reverse readme = some T →
      expectedSplice gen readme L q = some (T.drop q) := by
  intro L
  induction L with
  | nil =>
    intro q T _ _ _ _ h
    simp only [List.reverse_nil, splicePass] at h
    cases h
    rfl
  | cons m rest ih =>
    intro q T hbound hchain hq hqlen h
    rw [List.reverse_cons] at h
    obtain ⟨T', hT', hstep⟩ := splicePass_append h
    have hsteps : spliceStep gen readme m T' = some T := by
      unfold splicePass at hstep
      cases hs : spliceStep gen readme m T' with
      | none => rw [hs] at hstep; exact absurd hstep (by simp)
      | some v =>
        rw [hs] at hstep
        unfold splicePass at hstep
        cases hstep
        rfl
    obtain ⟨g, hg, hT⟩ := spliceStep_some hsteps
    have hmb : m.index + m.length ≤ readme.length := hbound m (by simp)
    have hre := regionEnd_ge hmb
    have hrle := regionEnd_le hmb
    have hrest_idx : ∀ m' ∈ rest, regionEnd readme m ≤ m'.index :=
      chain_regionEnd_forall hchain hbound
    have hrest_rev : ∀ m' ∈ rest.reverse, m.index ≤ m'.index := by
      intro m' hm'
      have := hrest_idx m' (List.mem_reverse.mp hm')
      omega
    have hframe := splicePass_frame hrest_rev (by omega : m.index ≤ readme.length) hT'
    have hIH := ih (regionEnd readme m) T'
      (fun x hx => hbound x (List.mem_cons_of_mem m hx))
      hchain.tail hrest_idx hrle hT'
    have hqm : q ≤ m.index := hq m (by simp)
    simp only [expectedSplice, hg, hIH]
    have hEnd : findNextHeadingBoundary readme (m.index + m.length) (markerBase m) =
        regionEnd readme m := rfl
    rw [hT, hEnd]
    have hlenA : q ≤ (T'.take m.index).length := by
      simp only [List.length_take]
      omega
    have hassoc : (T'.take m.index ++ markerReplacement m g ++
        T'.drop (regionEnd readme m) : Str) =
        T'.take m.index ++ (markerReplacement m g ++ T'.drop (regionEnd readme m)) :=
      List.append_assoc _ _ _
    rw [hassoc, List.drop_append_of_le_length hlenA, hframe.1, List.drop_take]
    simp [List.append_assoc]


/-- C3 as stated is refuted: over `c1doc`, where the second marker lies
inside the first marker's region, replacing the second (later) marker's
region with text of a different length corrupts the content of the
first (earlier) marker's region: after the pass that region holds a
stale tail of the later marker's old replacement in addition to its own
freshly generated content, not exactly its own content. -/
theorem offsetSafety_claim_false :
    updateReadmeModel (fun src h => some (c1gen src h)) c1phrase c1doc =
      PassResult.written c3badOut 2
    ∧ (findMatches c1phrase c1doc).head? = some c3matchA
    ∧ c3badOut = (c1doc.take c3matchA.index ++ markerReplacement c3matchA
        (c1gen c3matchA.sourceFile (hashMarks (markerBase c3matchA + 1))))
        ++ "B · function\n\n".data
    ∧ c3badOut.drop (c3matchA.index + c3matchA.length) ≠
        '\n' :: c1gen c3matchA.sourceFile (hashMarks (markerBase c3matchA + 1))
    ∧ c3badOut ≠ c1doc.take c3matchA.index ++ markerReplacement c3matchA
        (c1gen c3matchA.sourceFile (hashMarks (markerBase c3matchA + 1))) :=
  ⟨by decide, by decide, by decide, by decide, by decide⟩

/-- C3 (amended): match spans are pairwise ordered and non-overlapping
(so replacing one match's span never shifts the offsets of a match not
yet processed), each replacement leaves every position before its own
match byte-identical, and — provided the marker REGIONS are pairwise
disjoint, i.e. each marker's region ends at or before the next marker's
match (which the counterexample shows is needed) — the document written
by the pass is exactly the in-place replacement of every region: each
marker's region holds exactly its own freshly generated content and all
text outside the regions is untouched. -/
theorem reverseOrder_offsetSafety (gen : Str → Str → Option Str) (phrase readme : Str) :
    (findMatches phrase readme).Pairwise (fun a b => a.index + a.length ≤ b.index)
    ∧ (∀ (m : MarkerMatch) (u v : Str), m.index ≤ u.length →
        spliceStep gen readme m u = some v → v.take m.index = u.take m.index)
    ∧ (∀ (u : Str) (n : Nat),
        List.Chain' (fun a b => regionEnd readme a ≤ b.index) (findMatches phrase readme) →
        updateReadmeModel gen phrase readme = PassResult.written u n →
        expectedSplice gen readme (findMatches phrase readme) 0 = some u) := by
  refine ⟨findMatches_pairwise phrase readme, ?_, ?_⟩
  · intro m u v hlen hstep
    obtain ⟨g, -, hv⟩ := spliceStep_some hstep
    have h1 : m.index ≤ (u.take m.index).length := by
      simp only [List.length_take]
      omega
    rw [hv, List.append_assoc, List.take_append_of_le_length h1, List.take_take, min_self]
  · intro u n hchain hrun
    simp only [updateReadmeModel] at hrun
    split at hrun
    · exact absurd hrun (by simp)
    · cases hp : splicePass gen readme (findMatches phrase readme).reverse readme with
      | none =>
        rw [hp] at hrun
        exact absurd hrun (by simp)
      | some w =>
        rw [hp] at hrun
        simp only at hrun
        have hw : w = u := by
          cases hrun
          rfl
        subst hw
        have := splicePass_expected (findMatches phrase readme) 0 w
          (fun m hm => (findMatches_mem hm).1) hchain
          (fun _ _ => Nat.zero_le _) (Nat.zero_le _) hp
        simpa using this

theorem reverseOrder_offsetSafety_witness :
    expectedSplice c3disjointGen c3disjointDoc (findMatches c1phrase c3disjointDoc) 0 =
      some c3disjointOut :=
  (reverseOrder_offsetSafety c3disjointGen c1phrase c3disjointDoc).2.2 c3disjointOut 2
    (by
      rw [show findMatches c1phrase c3disjointDoc =
        [ { index := 0, length := 7, headingHashes := none,
            beforeSearch := "x\nP a:\n".data, sourceFile := "a".data },
          { index := 17, length := 7, headingHashes := none,
            beforeSearch := "y\nP b:\n".data, sourceFile := "b".data } ] from by decide]
      exact List.chain'_cons.mpr ⟨by decide, List.chain'_singleton _⟩)
    (by decide)

/-! ## Claims about the classifier and renderer -/

/-- C6: for a variable declaration, call-shape is checked before
const-ness: a rendered type containing an arrow or starting with a
parenthesis classifies as `function` regardless of const-ness, while a
const binding with a non-callable, non-`typeof` type classifies as
`constant` and renders a single `**Value:**` line showing the rendered
type. -/
theorem classifier_callShape_beforeConst (d : Decl) (ts : Str)
    (hk : d.kind = SynKind.variableDeclaration) :
    ((containsStr ts "=>".data || startsWithStr "(".data ts) = true →
      getTypeLabel d (some ts) = "function".data)
    ∧ (containsStr ts "=>".data = false → startsWithStr "(".data ts = false →
       startsWithStr "typeof ".data ts = false → ts ≠ [] → isConst d = true →
       getTypeLabel d (some ts) = "constant".data
       ∧ ∀ (jd : Option JSDocC) (ctx : LinkCtx) (hdMarks nm : Str),
           generateTypeSpecificDoc d (some ts) jd ctx hdMarks nm =
             Except.ok ("**Value:** \x60".data ++ ts ++ "\x60\n\n".data)) := by
  constructor
  · intro hcall
    have hts : ts ≠ [] := by
      intro he
      subst he
      exact absurd hcall (by decide)
    have hne : ts.isEmpty = false := by
      cases ts
      · exact absurd rfl hts
      · rfl
    simp [getTypeLabel, hk, jsTruthy, jsOrEmpty, hne, hcall]
  · intro h1 h2 h3 h4 h5
    have hne : ts.isEmpty = false := by
      cases ts
      · exact absurd rfl h4
      · rfl
    constructor
    · simp [getTypeLabel, hk, jsTruthy, jsOrEmpty, hne, h1, h2, h3, h5]
    · intro jd ctx hdMarks nm
      simp [generateTypeSpecificDoc, hk, jsTruthy, jsOrEmpty, hne, h1, h2, h3]

theorem classifier_callShape_beforeConst_witness :
    getTypeLabel answerDecl (some "42".data) = "constant".data
    ∧ generateTypeSpecificDoc answerDecl (some "42".data) none noLinkCtx "###".data
        "answer".data = Except.ok ("**Value:** \x6042\x60\n\n".data)
    ∧ getTypeLabel answerDecl (some "(x: T) => U".data) = "function".data := by
  have h := (classifier_callShape_beforeConst answerDecl "42".data rfl).2
    (by decide) (by decide) (by decide) (by decide) (by decide)
  exact ⟨h.1, h.2 none noLinkCtx "###".data "answer".data,
    (classifier_callShape_beforeConst answerDecl "(x: T) => U".data rfl).1 (by decide)⟩

/-- C10 as stated is refuted at the rendered type `typeof a => b`: a
variable whose rendered type starts with `typeof ` but also contains an
arrow takes the call-shape branch, so its label is `function`, not
`class`, and its body is a `**Signature:**` line, not the `**Type:**`
line. -/
theorem typeofVar_claim_false :
    getTypeLabel answerDecl (some "typeof a => b".data) ≠ "class".data
    ∧ generateTypeSpecificDoc answerDecl (some "typeof a => b".data) none noLinkCtx
        "###".data "x".data ≠
      Except.ok ("**Type:** \x60".data ++ "typeof a => b".data ++ "\x60\n\n".data) :=
  ⟨by decide, by decide⟩

/-- C10 (amended): for a variable whose rendered type starts with
`typeof ` and contains no arrow, the label is `class` and the body is
exactly one `**Type:**` line showing the rendered type — no type
parameters, no constructor block, no member sub-fragments. -/
theorem typeofVar_staticSideTypeLine (d : Decl) (ts : Str)
    (hk : d.kind = SynKind.variableDeclaration)
    (hty : startsWithStr "typeof ".data ts = true)
    (harrow : containsStr ts "=>".data = false) :
    getTypeLabel d (some ts) = "class".data
    ∧ ∀ (jd : Option JSDocC) (ctx : LinkCtx) (hdMarks nm : Str),
        generateTypeSpecificDoc d (some ts) jd ctx hdMarks nm =
          Except.ok ("**Type:** \x60".data ++ ts ++ "\x60\n\n".data) := by
  obtain ⟨c, rest, rfl⟩ : ∃ c rest, ts = c :: rest := by
    cases ts
    · exact absurd hty (by decide)
    · exact ⟨_, _, rfl⟩
  have hc : c = 't' := by
    have := hty
    simp [startsWithStr] at this
    exact this.1.symm
  subst hc
  have hpar : startsWithStr "(".data ('t' :: rest) = false := by
    simp [startsWithStr]
  have hne : ('t' :: rest).isEmpty = false := rfl
  constructor
  · simp [getTypeLabel, hk, jsTruthy, jsOrEmpty, hne, harrow, hpar, hty]
  · intro jd ctx hdMarks nm
    simp [generateTypeSpecificDoc, hk, jsTruthy, jsOrEmpty, hne, harrow, hpar, hty,
      generateClassDoc]

theorem typeofVar_staticSideTypeLine_witness :
    getTypeLabel answerDecl (some "typeof MathUtils".data) = "class".data
    ∧ generateTypeSpecificDoc answerDecl (some "typeof MathUtils".data) none noLinkCtx
        "###".data "MathUtils".data =
      Except.ok ("**Type:** \x60".data ++ "typeof MathUtils".data ++ "\x60\n\n".data) := by
  have h := typeofVar_staticSideTypeLine answerDecl "typeof MathUtils".data rfl
    (by decide) (by decide)
  exact ⟨h.1, h.2 none noLinkCtx "###".data "MathUtils".data⟩

/-! ## Plain-label link contexts -/

theorem linkedLabel_untracked {out : Str} (htrim : trimStr out = []) (ru : Option Str)
    (label : Str) (line : Nat) :
    linkedLabel label { repoUrl := ru, gitOut := Except.ok out } line = Except.ok label := by
  unfold linkedLabel
  split
  · simp [generateDeepLink, htrim]
  · rfl

theorem linkedLabel_noRepo (ctx : LinkCtx) (h : jsTruthy ctx.repoUrl = false)
    (label : Str) (line : Nat) :
    linkedLabel label ctx line = Except.ok label := by
  unfold linkedLabel
  rw [h]
  simp

theorem generateClassMemberDoc_ok {ctx : LinkCtx}
    (hplain : ∀ label line, linkedLabel label ctx line = Except.ok label)
    (m : Member) (isStatic : Bool) (hdMarks className : Str) :
    ∃ s, generateClassMemberDoc m ctx isStatic hdMarks className = Except.ok s := by
  unfold generateClassMemberDoc
  rw [hplain]
  exact ⟨_, rfl⟩

theorem mapM_memberDoc_ok {ctx : LinkCtx}
    (hplain : ∀ label line, linkedLabel label ctx line = Except.ok label)
    (hdMarks className : Str) :
    ∀ ms : List Member,
      ∃ l, ms.mapM (fun m => generateClassMemberDoc m ctx
        (m.modifiers.contains Modifier.staticKw) hdMarks className) = Except.ok l := by
  intro ms
  induction ms with
  | nil => exact ⟨[], rfl⟩
  | cons m rest ih =>
    obtain ⟨s, hs⟩ := generateClassMemberDoc_ok hplain m
      (m.modifiers.contains Modifier.staticKw) hdMarks className
    obtain ⟨l, hl⟩ := ih
    refine ⟨s :: l, ?_⟩
    rw [List.mapM_cons, hs, hl]
    rfl

theorem generateClassDoc_ok {ctx : LinkCtx}
    (hplain : ∀ label line, linkedLabel label ctx line = Except.ok label)
    (d : Decl) (ts : Str) (hdMarks className : Str) :
    ∃ s, generateClassDoc d ts ctx hdMarks className = Except.ok s := by
  unfold generateClassDoc
  split
  · exact ⟨_, rfl⟩
  · obtain ⟨l, hl⟩ := mapM_memberDoc_ok hplain hdMarks className (orderedMembersOf d)
    rw [hl]
    exact ⟨_, rfl⟩

theorem generateTypeSpecificDoc_ok {ctx : LinkCtx}
    (hplain : ∀ label line, linkedLabel label ctx line = Except.ok label)
    (d : Decl) (typeString : Option Str) (jd : Option JSDocC) (hdMarks nm : Str) :
    ∃ s, generateTypeSpecificDoc d typeString jd ctx hdMarks nm = Except.ok s := by
  simp only [generateTypeSpecificDoc]
  split
  · exact ⟨_, rfl⟩
  · split
    · exact ⟨_, rfl⟩
    · split
      · exact generateClassDoc_ok hplain d _ hdMarks nm
      · split
        all_goals first
          | exact ⟨_, rfl⟩
          | exact generateClassDoc_ok hplain d _ hdMarks nm

theorem generateSymbolDoc_shape {ctx : LinkCtx}
    (hplain : ∀ label line, linkedLabel label ctx line = Except.ok label)
    (name : Str) (d : Decl) (exportDecl : Option Decl) (typeInfo : Option Str)
    (hdMarks : Str) :
    ∃ body, generateSymbolDoc name (some d) exportDecl typeInfo ctx hdMarks =
      Except.ok (hdMarks ++ " ".data ++ name ++ " · ".data ++ getTypeLabel d typeInfo
        ++ "\n\n".data ++ body) := by
  obtain ⟨s, hs⟩ := generateTypeSpecificDoc_ok hplain d typeInfo
    (match extractJSDocOpt exportDecl with
     | some j => some j
     | none => extractJSDocOpt (some d)) hdMarks name
  refine ⟨(match (match extractJSDocOpt exportDecl with
     | some j => some j
     | none => extractJSDocOpt (some d)) with
     | some j => if jsTruthy j.comment then jsOrEmpty j.comment ++ "\n\n".data else []
     | none => []) ++ s, ?_⟩
  simp only [generateSymbolDoc, hplain, hs]
  simp [List.append_assoc]

/-- C5 as stated is refuted: with a repository URL configured, a
FAILING version-control lookup command (`execSync` raising) aborts the
rendering of the symbol fragment — the exception is not caught anywhere
in `generateSymbolDoc` or its callers. -/
theorem deepLinkFailure_claim_false :
    generateSymbolDoc "answer".data (some answerDecl) none (some "42".data) linkErrCtx
      "###".data = Except.error () := by decide

/-- C5 (amended): with a repository URL configured, the
file-not-tracked case (the lookup command succeeds with empty output)
degrades the deep link to `undefined` and the fragment renders with the
plain, non-hyperlinked kind label, without aborting; a failing lookup
command, however, propagates its exception (see the counterexample). -/
theorem deepLink_untracked_degrades (name : Str) (d : Decl) (exportDecl : Option Decl)
    (typeInfo : Option Str) (ru : Option Str) (out : Str) (hdMarks : Str)
    (htrim : trimStr out = []) :
    generateDeepLink (jsOrEmpty ru) d.line (Except.ok out) = Except.ok none
    ∧ ∃ body, generateSymbolDoc name (some d) exportDecl typeInfo
        { repoUrl := ru, gitOut := Except.ok out } hdMarks =
      Except.ok (hdMarks ++ " ".data ++ name ++ " · ".data ++ getTypeLabel d typeInfo
        ++ "\n\n".data ++ body) := by
  constructor
  · simp [generateDeepLink, htrim]
  · exact generateSymbolDoc_shape (linkedLabel_untracked htrim ru) name d exportDecl
      typeInfo hdMarks

theorem deepLink_untracked_degrades_witness :
    generateDeepLink (jsOrEmpty (some "https://github.com/me/example".data))
      answerDecl.line (Except.ok []) = Except.ok none
    ∧ ∃ body, generateSymbolDoc "answer".data (some answerDecl) none (some "42".data)
        { repoUrl := some "https://github.com/me/example".data, gitOut := Except.ok [] }
        "###".data =
      Except.ok ("###".data ++ " ".data ++ "answer".data ++ " · ".data
        ++ getTypeLabel answerDecl (some "42".data) ++ "\n\n".data ++ body) :=
  deepLink_untracked_degrades "answer".data answerDecl none (some "42".data)
    (some "https://github.com/me/example".data) [] "###".data (by decide)

/-- C9: the documentation comment used for a symbol is the first hit of
a fixed search order — the export declaration's own comment, then (for
a variable) its declaration list's and statement's comments, then the
resolved declaration's own comment, then (for a variable) its
declaration list's and statement's comments; and when every candidate
is absent the fragment still renders (no error), with no summary
paragraph between the heading and the kind-specific body. -/
theorem docSearchOrder (e d : Decl) :
    (match extractJSDocOpt (some e) with
     | some j => some j
     | none => extractJSDocOpt (some d)) =
      (jsDocSearchList e.toDocNode ++ jsDocSearchList d.toDocNode).findSome? id
    ∧ (∀ (name : Str) (typeInfo : Option Str) (hdMarks : Str) (gitOut : Except Unit Str),
        extractJSDoc e.toDocNode = none → extractJSDoc d.toDocNode = none →
        ∃ body, generateTypeSpecificDoc d typeInfo none
            { repoUrl := none, gitOut := gitOut } hdMarks name = Except.ok body ∧
          generateSymbolDoc name (some d) (some e) typeInfo
            { repoUrl := none, gitOut := gitOut } hdMarks =
          Except.ok (hdMarks ++ " ".data ++ name ++ " · ".data ++ getTypeLabel d typeInfo
            ++ "\n\n".data ++ body)) := by
  constructor
  · simp only [extractJSDocOpt, extractJSDoc, jsDocSearchList, Decl.toDocNode]
    cases hek : (e.kind == SynKind.variableDeclaration) <;>
      cases hdk : (d.kind == SynKind.variableDeclaration) <;>
      cases e.jsDoc <;> cases e.parentJsDoc <;> cases e.grandparentJsDoc <;>
      cases d.jsDoc <;> cases d.parentJsDoc <;> cases d.grandparentJsDoc <;>
      simp [List.findSome?]
  · intro name typeInfo hdMarks gitOut h1 h2
    have hplain : ∀ label line, linkedLabel label
        { repoUrl := none, gitOut := gitOut } line = Except.ok label :=
      fun label line => linkedLabel_noRepo { repoUrl := none, gitOut := gitOut } rfl label line
    have hjd : (match extractJSDocOpt (some e) with
        | some j => some j
        | none => extractJSDocOpt (some d)) = (none : Option JSDocC) := by
      simp only [extractJSDocOpt]
      rw [h1, h2]
    obtain ⟨s, hs⟩ := generateTypeSpecificDoc_ok hplain d typeInfo none hdMarks name
    refine ⟨s, hs, ?_⟩
    simp only [generateSymbolDoc, hplain, hjd, hs]
    simp

theorem docSearchOrder_witness :
    ∃ body, generateTypeSpecificDoc bareVarDecl (some "42".data) none
        { repoUrl := none, gitOut := Except.ok [] } "###".data "answer".data =
      Except.ok body ∧
      generateSymbolDoc "answer".data (some bareVarDecl) (some bareVarDecl)
        (some "42".data) { repoUrl := none, gitOut := Except.ok [] } "###".data =
      Except.ok ("###".data ++ " ".data ++ "answer".data ++ " · ".data
        ++ getTypeLabel bareVarDecl (some "42".data) ++ "\n\n".data ++ body) :=
  (docSearchOrder bareVarDecl bareVarDecl).2 "answer".data (some "42".data) "###".data
    (Except.ok []) (by decide) (by decide)

/-- C8: no member whose name begins with an underscore is ever
rendered, and the constructor never appears as a member entry — the
class output is exactly type parameters, class tags, the
`Constructor Parameters` block (derived from the constructor's own
`@param` tags) and the sub-fragments of the filtered members. -/
theorem memberFiltering (d : Decl)
    (hk : d.kind = SynKind.classDeclaration ∨ d.kind = SynKind.interfaceDeclaration) :
    (∀ m ∈ orderedMembersOf d,
        (match m.name with
         | some nm => startsWithStr "_".data nm
         | none => false) = false ∧ m.kind ≠ SynKind.ctorDecl)
    ∧ (∀ (ts : Str) (ctx : LinkCtx) (hdMarks className out : Str),
        generateClassDoc d ts ctx hdMarks className = Except.ok out →
        ∃ memberDocs, (orderedMembersOf d).mapM (fun m =>
            generateClassMemberDoc m ctx (m.modifiers.contains Modifier.staticKw)
              hdMarks className) = Except.ok memberDocs ∧
          out = (if d.typeParameters.length > 0 then
                   generateTypeParameters d.typeParameters (extractJSDoc d.toDocNode)
                 else []) ++ generateJSDocTags (extractJSDoc d.toDocNode)
                ++ constructorParamsBlock d ++ memberDocs.flatten) := by
  constructor
  · intro m hm
    have hpub : m ∈ publicMembersOf d := by
      unfold orderedMembersOf staticMembersOf instanceMembersOf at hm
      rcases List.mem_append.mp hm with h | h
      · exact List.mem_of_mem_filter h
      · exact List.mem_of_mem_filter h
    have hfilter := List.of_mem_filter hpub
    simp only [Bool.and_eq_true, Bool.not_eq_true', bne_iff_ne] at hfilter
    exact hfilter
  · intro ts ctx hdMarks className out h
    have hkind : (d.kind == SynKind.variableDeclaration) = false := by
      rcases hk with h1 | h1 <;> rw [h1] <;> rfl
    simp only [generateClassDoc, hkind] at h
    cases hm : (orderedMembersOf d).mapM (fun m =>
        generateClassMemberDoc m ctx (m.modifiers.contains Modifier.staticKw)
          hdMarks className) with
    | error e =>
      rw [hm] at h
      exact absurd h (by simp)
    | ok memberDocs =>
      rw [hm] at h
      refine ⟨memberDocs, rfl, ?_⟩
      simp only at h
      cases h
      rfl

theorem memberFiltering_witness :
    ((match roundMember.name with
      | some nm => startsWithStr "_".data nm
      | none => false) = false ∧ roundMember.kind ≠ SynKind.ctorDecl)
    ∧ orderedMembersOf mathUtilsDecl = [roundMember] :=
  ⟨(memberFiltering mathUtilsDecl (Or.inl rfl)).1 roundMember (by decide), by decide⟩

/-! ## Heading-depth lemmas -/

theorem runLength_replicate_append (p : Char → Bool) (c : Char) (hc : p c = true)
    (n : Nat) (l : Str) :
    runLength p (List.replicate n c ++ l) = n + runLength p l := by
  induction n with
  | zero => simp
  | succ n ih =>
    rw [List.replicate_succ, List.cons_append]
    rw [show runLength p (c :: (List.replicate n c ++ l)) =
      runLength p (List.replicate n c ++ l) + 1 from by simp [runLength, hc]]
    rw [ih]
    omega

theorem runLength_hash_block (n : Nat) (rest : Str) :
    runLength (fun c => c == '#') (hashMarks n ++ (" ".data ++ rest)) = n := by
  have hsp : " ".data = [' '] := rfl
  rw [hashMarks, hsp, List.singleton_append,
    runLength_replicate_append _ _ rfl]
  simp [runLength]

theorem runLength_hash_block2 (n : Nat) (rest : Str) :
    runLength (fun c => c == '#') (hashMarks n ++ ("# ".data ++ rest)) = n + 1 := by
  have hsp : "# ".data = ['#', ' '] := rfl
  rw [hashMarks, hsp]
  rw [show (['#', ' '] ++ rest : Str) = '#' :: ' ' :: rest from rfl]
  rw [runLength_replicate_append _ _ rfl]
  simp [runLength]

/-- C7: the base heading level of a marker is the captured preceding
heading's depth when present and 2 otherwise; the splice invokes the
generator with heading marks of length base + 1 (so generated symbol
headings sit exactly one level below the base); and every member
heading carries exactly one more heading mark than its symbol's
heading marks. -/
theorem headingDepth_invariants :
    (∀ (m : MarkerMatch) (k : Nat),
        (m.headingHashes = some k → markerBase m = k)
        ∧ (m.headingHashes = none → markerBase m = 2))
    ∧ (∀ (gen : Str → Str → Option Str) (readme : Str) (m : MarkerMatch) (u v : Str),
        spliceStep gen readme m u = some v →
        ∃ g, gen m.sourceFile (hashMarks (markerBase m + 1)) = some g ∧
          v = u.take m.index ++ markerReplacement m g ++
            u.drop (findNextHeadingBoundary readme (m.index + m.length) (markerBase m)))
    ∧ (∀ (n : Nat) (name : Str) (decl exportDecl : Option Decl) (typeInfo : Option Str)
        (ctx : LinkCtx) (frag : Str),
        generateSymbolDoc name decl exportDecl typeInfo ctx (hashMarks (n + 1)) =
          Except.ok frag →
        runLength (fun c => c == '#') frag = n + 1)
    ∧ (∀ (n : Nat) (m : Member) (ctx : LinkCtx) (isStatic : Bool) (className mfrag : Str),
        generateClassMemberDoc m ctx isStatic (hashMarks (n + 1)) className =
          Except.ok mfrag →
        runLength (fun c => c == '#') mfrag = n + 2) := by
  refine ⟨?_, ?_, ?_, ?_⟩
  · intro m k
    constructor <;> intro h <;> simp [markerBase, h]
  · intro gen readme m u v h
    exact spliceStep_some h
  · intro n name decl exportDecl typeInfo ctx frag h
    cases decl with
    | none =>
      simp only [generateSymbolDoc] at h
      cases h
      simp only [List.append_assoc]
      exact runLength_hash_block (n + 1) _
    | some d =>
      simp only [generateSymbolDoc] at h
      cases hl : linkedLabel (getTypeLabel d typeInfo) ctx d.line with
      | error e =>
        rw [hl] at h
        exact absurd h (by simp)
      | ok label =>
        rw [hl] at h
        simp only at h
        cases hts : generateTypeSpecificDoc d typeInfo
            (match extractJSDocOpt exportDecl with
             | some j => some j
             | none => extractJSDocOpt (some d)) ctx (hashMarks (n + 1)) name with
        | error e =>
          rw [hts] at h
          exact absurd h (by simp)
        | ok body =>
          rw [hts] at h
          simp only at h
          cases h
          simp only [List.append_assoc]
          exact runLength_hash_block (n + 1) _
  · intro n m ctx isStatic className mfrag h
    simp only [generateClassMemberDoc] at h
    cases hl : linkedLabel (getMemberType m isStatic) ctx m.line with
    | error e =>
      rw [hl] at h
      exact absurd h (by simp)
    | ok label =>
      rw [hl] at h
      simp only at h
      cases h
      simp only [List.append_assoc]
      exact runLength_hash_block2 (n + 1) _

theorem headingDepth_invariants_witness :
    runLength (fun c => c == '#') "### answer\n\n*No declaration found*\n\n".data = 3
    ∧ runLength (fun c => c == '#') "#### c.x · property\n\n".data = 4
    ∧ (∃ g, w3gen w3match.sourceFile (hashMarks (markerBase w3match + 1)) = some g ∧
        w3out = w3doc.take w3match.index ++ markerReplacement w3match g ++
          w3doc.drop (findNextHeadingBoundary w3doc (w3match.index + w3match.length)
            (markerBase w3match))) :=
  ⟨headingDepth_invariants.2.2.1 2 "answer".data none none none noLinkCtx _ (by decide),
   headingDepth_invariants.2.2.2 2 plainPropMember noLinkCtx false "C".data _ (by decide),
   headingDepth_invariants.2.1 w3gen w3doc w3match w3doc w3out (by decide)⟩
